import Mathlib

/-!
Verification development for the Calls-Aggregator bot (`main.py`).

The embedding below models, from the source:
* `parse_filter` / `parse_single_condition` (filter text → condition list),
* `evaluate_filter` / `check_condition` (condition evaluation over post text),
* `format_call_message` (call-template reformatting),
* the per-channel body of `poll_channels` (watermark advance and delivery),
* the `all_must_match` flag computed in `poll_channels` via `json.dumps`.

Conventions of the embedding:
* Python strings are Lean `String`s; the regular-expression fragments used by
  the source (`re.match` / `re.search` / `re.findall` on the fixed patterns of
  `main.py`) are hand-compiled to deterministic matchers over `List Char`.
  Each matcher follows the backtracking behaviour of the concrete pattern it
  embeds (the patterns are simple enough that greedy matching is equivalent,
  except where noted, e.g. the price group, which is compiled with its one
  backtracking case made explicit).
* Python floats are modelled as `Rat`: every number the program compares is a
  short decimal literal extracted from text, and `float` parsing of decimals
  is monotone, so rational semantics agrees with IEEE semantics on all the
  comparisons stated here.  The `\d` and whitespace classes are modelled over
  the character sets Python uses for `str` patterns (ASCII digits; the Python
  whitespace set).
* The delivery sink is modelled by two oracles `okPrimary`, `okFallback`
  telling whether a given send succeeds; a poll cycle returns the new
  watermark and the ordered trace of persist/send events it performs.
-/

/-- Whitespace as matched by Python's `\s` (and stripped by `str.strip`)
for `str` patterns. -/
def pySpace (c : Char) : Bool :=
  let n := c.toNat
  n == 0x20 || n == 0x9 || n == 0xa || n == 0xd || n == 0xb || n == 0xc ||
  n == 0x1c || n == 0x1d || n == 0x1e || n == 0x1f || n == 0x85 || n == 0xa0 ||
  n == 0x1680 || (decide (0x2000 ≤ n) && decide (n ≤ 0x200a)) ||
  n == 0x2028 || n == 0x2029 || n == 0x202f || n == 0x205f || n == 0x3000

/-- Decimal digit, Python's `\d` on ASCII input. -/
def pyDigit (c : Char) : Bool :=
  decide (48 ≤ c.toNat) && decide (c.toNat ≤ 57)

/-- Boolean list-prefix test. -/
def isPrefixB : List Char → List Char → Bool
  | [], _ => true
  | _ :: _, [] => false
  | a :: as, b :: bs => a == b && isPrefixB as bs

/-- Boolean contiguous-sublist test; the empty needle occurs in every list,
matching Python's `'' in s == True`. -/
def isInfixB (needle : List Char) : List Char → Bool
  | [] => needle.isEmpty
  | c :: rest => isPrefixB needle (c :: rest) || isInfixB needle rest

/-- Python's `needle in hay` on strings (substring containment). -/
def pyIn (needle hay : String) : Bool := isInfixB needle.data hay.data

/-- Python's `s.split(sep)` for a one-character separator: keeps empty pieces,
`"".split` gives one empty piece. -/
def splitOnChar (sep : Char) : List Char → List (List Char)
  | [] => [[]]
  | c :: rest =>
    if c == sep then [] :: splitOnChar sep rest
    else
      match splitOnChar sep rest with
      | [] => [[c]]
      | h :: t => (c :: h) :: t

/-- Characters of a string with leading and trailing Python whitespace removed. -/
def stripChars (l : List Char) : List Char :=
  ((l.dropWhile pySpace).reverse.dropWhile pySpace).reverse

/-- Python's `s.strip()`. -/
def pyStrip (s : String) : String := String.mk (stripChars s.data)

/-- Comparison operator of a condition, the four values produced by the
`[><]=?` groups of `parse_single_condition`. -/
inductive Op where
  | gt
  | lt
  | ge
  | le
deriving DecidableEq, Repr

/-- The operator's source text, as stored in the condition dict. -/
def Op.pyStr : Op → String
  | .gt => ">"
  | .lt => "<"
  | .ge => ">="
  | .le => "<="

/-- The comparison dispatch of `check_condition` (the `if/elif` chain on the
operator string). -/
def Op.apply : Op → Rat → Rat → Bool
  | .gt, a, b => decide (a > b)
  | .lt, a, b => decide (a < b)
  | .ge, a, b => decide (a ≥ b)
  | .le, a, b => decide (a ≤ b)

/-- A parsed condition: the four dict shapes produced by
`parse_single_condition` (`'text'`, `'alternatives'`, `'timer'`,
`'condition'`).  Numeric values are kept as their source text, exactly as the
dicts keep them; they are converted by `float` only inside `check_condition`. -/
inductive Cond where
  | text (value : String)
  | alternatives (values : List String)
  | timer (operator : Op) (value : String)
  | num (key : String) (operator : Op) (value : String)
deriving DecidableEq, Repr

/-- Match a literal prefix, returning the remainder. -/
def stripPrefixChars : List Char → List Char → Option (List Char)
  | [], l => some l
  | _ :: _, [] => none
  | a :: as, b :: bs => if a == b then stripPrefixChars as bs else none

/-- Match `\d+\.?\d*` at the head of the list: the matched characters and the
remainder.  Greedy and deterministic (digits, dot, `%`/`s`, `}` and space are
pairwise disjoint wherever this group is used, so no backtracking arises). -/
def parseNumChars (l : List Char) : Option (List Char × List Char) :=
  let ds := l.takeWhile pyDigit
  if ds.isEmpty then none
  else
    match l.drop ds.length with
    | '.' :: rest =>
      let fs := rest.takeWhile pyDigit
      some (ds ++ '.' :: fs, rest.drop fs.length)
    | rest => some (ds, rest)

/-- Match `[><]=?` at the head of the list. -/
def parseOpChars : List Char → Option (Op × List Char)
  | '>' :: '=' :: r => some (.ge, r)
  | '>' :: r => some (.gt, r)
  | '<' :: '=' :: r => some (.le, r)
  | '<' :: r => some (.lt, r)
  | _ => none

/-- The timer glyph of the source patterns: U+23F1 followed by the variation
selector U+FE0F, i.e. the two code points of the emoji in `main.py`. -/
def timerGlyph : List Char := ['⏱', '️']

/-- The `re.match` of the timer pattern `⏱️{([><]=?)(\d+\.?\d*)\}\s*min`
(anchored at the start, prefix match): operator and number text. -/
def matchTimer (l : List Char) : Option (Op × List Char) := do
  let rest ← stripPrefixChars (timerGlyph ++ ['\x7b']) l
  let (op, rest) ← parseOpChars rest
  let (num, rest) ← parseNumChars rest
  match rest with
  | '\x7d' :: rest2 =>
    if isPrefixB ['m', 'i', 'n'] (rest2.dropWhile pySpace) then some (op, num) else none
  | _ => none

/-- Body of the standard-condition pattern after the lazy key:
`\{([><]=?)(\d+\.?\d*[%s]?)\}`. -/
def numericBody (l : List Char) : Option (Op × List Char) := do
  let rest ← stripPrefixChars ['\x7b'] l
  let (op, rest) ← parseOpChars rest
  let (num, rest) ← parseNumChars rest
  match rest with
  | '%' :: '\x7d' :: _ => some (op, num ++ ['%'])
  | 's' :: '\x7d' :: _ => some (op, num ++ ['s'])
  | '\x7d' :: _ => some (op, num)
  | _ => none

/-- The lazy group `(.+?)` of `(.+?)\{([><]=?)(\d+\.?\d*[%s]?)\}`: try the
shortest non-empty key first; `.` does not cross a newline.  `keyRev` holds
the key characters consumed so far, in reverse. -/
def matchNumericGo (keyRev : List Char) : List Char → Option (List Char × Op × List Char)
  | [] => none
  | c :: rest =>
    match keyRev, numericBody (c :: rest) with
    | _ :: _, some (op, v) => some (keyRev.reverse, op, v)
    | _, _ => if c == '\n' then none else matchNumericGo (c :: keyRev) rest

/-- The `re.match` of the standard-condition pattern
`(.+?)\{([><]=?)(\d+\.?\d*[%s]?)\}`: raw key text, operator, value text. -/
def matchNumeric (l : List Char) : Option (List Char × Op × List Char) :=
  matchNumericGo [] l

/-- Source `parse_single_condition`: alternatives on `/` first, then the
timer pattern, then the standard numeric pattern, else a text condition
holding the untouched fragment. -/
def parse_single_condition (condition : String) : Cond :=
  if pyIn "/" condition then
    .alternatives ((splitOnChar '/' condition.data).map String.mk)
  else
    match matchTimer condition.data with
    | some (op, v) => .timer op (String.mk v)
    | none =>
      match matchNumeric condition.data with
      | some (k, op, v) => .num (pyStrip (String.mk k)) op (String.mk v)
      | none => .text condition

/-- The `re.findall(r'"([^"]+)"', ...)` scan of `parse_filter`: non-empty
quoted groups, scanned left to right without overlap.  Fuel is the length of
the list, enough for every step. -/
def findQuotedGo : Nat → List Char → List (List Char)
  | 0, _ => []
  | _ + 1, [] => []
  | fuel + 1, c :: rest =>
    if c == '"' then
      let grp := rest.takeWhile (fun d => !(d == '"'))
      match rest.drop grp.length with
      | '"' :: rest2 =>
        if grp.isEmpty then findQuotedGo fuel rest
        else grp :: findQuotedGo fuel rest2
      | _ => []
    else findQuotedGo fuel rest

/-- All non-empty quoted groups of a submission. -/
def findQuoted (l : List Char) : List (List Char) := findQuotedGo l.length l

/-- Source `parse_filter`: quoted groups if any quote occurs, else one
condition per non-empty stripped line. -/
def parse_filter (filter_text : String) : List Cond :=
  if pyIn "\"" filter_text then
    (findQuoted filter_text.data).map (fun frag => parse_single_condition (String.mk frag))
  else
    (((splitOnChar '\n' filter_text.data).map (fun part => pyStrip (String.mk part))).filter
      (fun part => !part.isEmpty)).map parse_single_condition

/-- Value of a run of ASCII digits. -/
def digitsToNat (l : List Char) : Nat :=
  l.foldl (fun a c => a * 10 + (c.toNat - 48)) 0

/-- Python `float` on the decimal texts produced by the embedded patterns
(`-?\d+(\.\d*)?`), modelled as an exact rational. -/
def pyFloatOfChars (l : List Char) : Rat :=
  let neg := isPrefixB ['-'] l
  let l2 := if neg then l.drop 1 else l
  let ip := l2.takeWhile (fun c => !(c == '.'))
  let v : Rat :=
    match l2.drop ip.length with
    | '.' :: fs => (digitsToNat ip : Rat) + (digitsToNat fs : Rat) / ((10 : Rat) ^ fs.length)
    | _ => (digitsToNat ip : Rat)
  if neg then -v else v

/-- Python `value.rstrip('%s')` on the stored value text. -/
def rstripUnitChars (l : List Char) : List Char :=
  (l.reverse.dropWhile (fun c => c == '%' || c == 's')).reverse

/-- The filter-side unit of a stored value text:
`value[-1] if value[-1] in '%s' else None`. -/
def expectedUnitOf (l : List Char) : Option Char :=
  match l.getLast? with
  | some c => if c == '%' || c == 's' then some c else none
  | none => none

/-- The position scan of `re.search`: try the anchored matcher at every
suffix, left to right, returning the leftmost match. -/
def regexSearch {α : Type} (matchAt : List Char → Option α) : List Char → Option α
  | [] => matchAt []
  | c :: rest =>
    match matchAt (c :: rest) with
    | some r => some r
    | none => regexSearch matchAt rest

/-- Anchored matcher for the timer check pattern `⏱️\s*(\d+\.?\d*)\s*min`:
the number text. -/
def timerFindAt (l : List Char) : Option (List Char) := do
  let rest ← stripPrefixChars timerGlyph l
  let (num, rest2) ← parseNumChars (rest.dropWhile pySpace)
  if isPrefixB ['m', 'i', 'n'] (rest2.dropWhile pySpace) then some num else none

/-- The `re.search` for the timer check. -/
def timerSearch (l : List Char) : Option (List Char) := regexSearch timerFindAt l

/-- Anchored matcher for the numeric check pattern
`re.escape(key) + [\s:]*([-]?\d+\.?\d*)\s*(%|s)?`: the signed number text
and the captured unit (group 2), `none` when the optional group is absent. -/
def numFindAt (key : List Char) (l : List Char) : Option (List Char × Option Char) := do
  let rest ← stripPrefixChars key l
  let rest2 := rest.dropWhile (fun c => pySpace c || c == ':')
  let (sgn, rest3) :=
    match rest2 with
    | '-' :: r => (['-'], r)
    | r => (([] : List Char), r)
  let (num, rest4) ← parseNumChars rest3
  let unit : Option Char :=
    match rest4.dropWhile pySpace with
    | '%' :: _ => some '%'
    | 's' :: _ => some 's'
    | _ => none
  some (sgn ++ num, unit)

/-- The `re.search` for the numeric check. -/
def numSearch (key l : List Char) : Option (List Char × Option Char) :=
  regexSearch (numFindAt key) l

/-- Source `check_condition`: one branch per condition shape.  The numeric
branch reconciles units exactly as the source (`''`/`None` are both `none`
here), takes the absolute value of the extracted number, and compares. -/
def check_condition (post_text : String) (cond : Cond) : Bool :=
  match cond with
  | .text v => pyIn v post_text
  | .alternatives vs => vs.any (fun v => pyIn v post_text)
  | .timer op v =>
    match timerSearch post_text.data with
    | none => false
    | some raw => op.apply (pyFloatOfChars raw) (pyFloatOfChars v.data)
  | .num key op v =>
    match numSearch key.data post_text.data with
    | none => false
    | some (raw, unit) =>
      let expected := expectedUnitOf v.data
      let target := pyFloatOfChars (rstripUnitChars v.data)
      if unit = none ∧ expected = none then op.apply |pyFloatOfChars raw| target
      else if unit ≠ expected then false
      else op.apply |pyFloatOfChars raw| target

/-- Source `evaluate_filter`: empty condition list passes; otherwise `all`
under AND composition, `any` under OR composition. -/
def evaluate_filter (post_text : String) (conditions : List Cond)
    (all_must_match : Bool) : Bool :=
  if conditions.isEmpty then true
  else if all_must_match then conditions.all (check_condition post_text)
  else conditions.any (check_condition post_text)

/-- Lowercase hexadecimal digit, as emitted by `json.dumps` escapes. -/
def hexLowerDigit (n : Nat) : Char :=
  if n < 10 then Char.ofNat (48 + n) else Char.ofNat (87 + n)

/-- One `\uXXXX` escape of `json.dumps` (`ensure_ascii=True`). -/
def uEscape4 (n : Nat) : List Char :=
  ['\\', 'u', hexLowerDigit (n / 4096 % 16), hexLowerDigit (n / 256 % 16),
   hexLowerDigit (n / 16 % 16), hexLowerDigit (n % 16)]

/-- The character escaping of `json.dumps` with its default `ensure_ascii`
(non-ASCII becomes `\uXXXX`, astral code points a surrogate pair). -/
def jsonEscapeChar (c : Char) : List Char :=
  if c == '"' then ['\\', '"']
  else if c == '\\' then ['\\', '\\']
  else if c == '\n' then ['\\', 'n']
  else if c == '\r' then ['\\', 'r']
  else if c == '\t' then ['\\', 't']
  else if c.toNat == 8 then ['\\', 'b']
  else if c.toNat == 12 then ['\\', 'f']
  else if decide (c.toNat < 32) || decide (126 < c.toNat) then
    if c.toNat < 65536 then uEscape4 c.toNat
    else
      uEscape4 (0xd800 + (c.toNat - 65536) / 1024)
        ++ uEscape4 (0xdc00 + (c.toNat - 65536) % 1024)
  else [c]

/-- `json.dumps` of one Python string. -/
def jsonStrChars (s : String) : List Char :=
  '"' :: s.data.foldr (fun c acc => jsonEscapeChar c ++ acc) ['"']

/-- The `', '` item separator of `json.dumps` lists. -/
def jsonJoinComma : List (List Char) → List Char
  | [] => []
  | [x] => x
  | x :: rest => x ++ ',' :: ' ' :: jsonJoinComma rest

/-- `json.dumps(cond)` for each condition dict shape, with the dict's
insertion order of keys and the default separators. -/
def condJsonChars : Cond → List Char
  | .text v =>
      "\x7b\"type\": \"text\", \"value\": ".data ++ jsonStrChars v ++ ['\x7d']
  | .alternatives vs =>
      "\x7b\"type\": \"alternatives\", \"values\": [".data
        ++ jsonJoinComma (vs.map jsonStrChars) ++ [']', '\x7d']
  | .timer op v =>
      "\x7b\"type\": \"timer\", \"operator\": ".data ++ jsonStrChars op.pyStr
        ++ ", \"value\": ".data ++ jsonStrChars v ++ ['\x7d']
  | .num k op v =>
      "\x7b\"type\": \"condition\", \"key\": ".data ++ jsonStrChars k
        ++ ", \"operator\": ".data ++ jsonStrChars op.pyStr
        ++ ", \"value\": ".data ++ jsonStrChars v ++ ['\x7d']

/-- The flag `poll_channels` passes to `evaluate_filter`:
`any('"' in json.dumps(cond) for cond in data['filter'])`. -/
def allMustMatchFlag (conds : List Cond) : Bool :=
  conds.any (fun c => isInfixB ['"'] (condJsonChars c))

/-- A fetched post, the two fields the poll body reads. -/
structure Post where
  id : Nat
  text : String
deriving DecidableEq, Repr

/-- Observable event of one channel's poll cycle: persisting the watermark,
attempting a primary (formatted) send, attempting a fallback (bare-link)
send.  The oracles decide whether an attempted send succeeds. -/
inductive Ev where
  | persist (watermark : Nat)
  | sendPrimary (id : Nat)
  | sendFallback (id : Nat)
deriving DecidableEq, Repr

/-- `max(post['id'] for post in posts)` (callers guard non-emptiness). -/
def maxId : List Post → Nat
  | [] => 0
  | p :: rest => rest.foldl (fun a q => max a q.id) p.id

/-- Stable insertion of a post into an id-sorted list: the new post goes
before the first strictly larger id, after equal ids already present. -/
def insertById (p : Post) : List Post → List Post
  | [] => [p]
  | q :: rest => if q.id < p.id then q :: insertById p rest else p :: q :: rest

/-- `sorted(new_posts, key=lambda x: x['id'])`: Python's sort is stable, and
every stable sort by the same key produces the same list, so this stable
insertion sort is extensionally the source's sort. -/
def sortById : List Post → List Post
  | [] => []
  | p :: rest => insertById p (sortById rest)

/-- The delivery loop of `poll_channels` (lines 668-692): posts in ascending
id order; a filter-passing post gets a primary send attempt; if that raises,
the handler attempts one fallback send; if the fallback send raises too, the
exception leaves the loop and is caught by the per-channel handler, so the
remaining posts of this cycle are skipped. -/
def deliverLoop (conds : List Cond) (okPrimary okFallback : Post → Bool) :
    List Post → List Ev
  | [] => []
  | p :: rest =>
    if evaluate_filter p.text conds (allMustMatchFlag conds) then
      if okPrimary p then
        Ev.sendPrimary p.id :: deliverLoop conds okPrimary okFallback rest
      else if okFallback p then
        Ev.sendPrimary p.id :: Ev.sendFallback p.id ::
          deliverLoop conds okPrimary okFallback rest
      else [Ev.sendPrimary p.id, Ev.sendFallback p.id]
    else deliverLoop conds okPrimary okFallback rest

/-- One channel's body of `poll_channels` (lines 650-692): skip when no
filter is configured; select posts above the watermark; if any, advance the
watermark to the maximum id of the whole fetched batch and persist it before
delivering; then run the delivery loop on the new posts in ascending order.
Returns the new watermark and the event trace. -/
def pollCycle (conds : List Cond) (okPrimary okFallback : Post → Bool)
    (watermark : Nat) (posts : List Post) : Nat × List Ev :=
  if conds.isEmpty then (watermark, [])
  else
    let newPosts := posts.filter (fun p => decide (watermark < p.id))
    if newPosts.isEmpty then (watermark, [])
    else
      let m := maxId posts
      (m, Ev.persist m :: deliverLoop conds okPrimary okFallback (sortById newPosts))

/-- Send events of a trace (everything but watermark persistence). -/
def isSendEv : Ev → Bool
  | .persist _ => false
  | .sendPrimary _ => true
  | .sendFallback _ => true

/-- The sends attempted in a trace. -/
def sendEvents (tr : List Ev) : List Ev := tr.filter isSendEv

/-- The three registered extraction patterns of `format_call_message`. -/
inductive PatKind where
  | nowLastPrice
  | price
  | eta
deriving DecidableEq, Repr

/-- The group `(\d+\.?\d+)` of the `Price` pattern.  This is the one group
with a real backtracking case: on a run of at least two digits not followed
by `.digits`, the final `\d+` takes the last digit back from the first. -/
def numGroupTwoDigits (l : List Char) : Option (List Char) :=
  let ds := l.takeWhile pyDigit
  if ds.isEmpty then none
  else
    match l.drop ds.length with
    | '.' :: rest =>
      let fs := rest.takeWhile pyDigit
      if fs.isEmpty then if 2 ≤ ds.length then some ds else none
      else some (ds ++ '.' :: fs)
    | _ => if 2 ≤ ds.length then some ds else none

/-- Anchored matcher for `Now last price:\s*\$?(\d+\.?\d*)`. -/
def nlpFindAt (l : List Char) : Option (List Char) := do
  let rest ← stripPrefixChars "Now last price:".data l
  let rest2 :=
    match rest.dropWhile pySpace with
    | '$' :: r => r
    | r => r
  (parseNumChars rest2).map Prod.fst

/-- Anchored matcher for `Price:\s*\$?(\d+\.?\d+)`. -/
def priceFindAt (l : List Char) : Option (List Char) := do
  let rest ← stripPrefixChars "Price:".data l
  let rest2 :=
    match rest.dropWhile pySpace with
    | '$' :: r => r
    | r => r
  numGroupTwoDigits rest2

/-- Anchored matcher for `ETA:\s*(\d+m)`. -/
def etaFindAt (l : List Char) : Option (List Char) := do
  let rest ← stripPrefixChars "ETA:".data l
  let rest2 := rest.dropWhile pySpace
  let ds := rest2.takeWhile pyDigit
  if ds.isEmpty then none
  else
    match rest2.drop ds.length with
    | 'm' :: _ => some (ds ++ ['m'])
    | _ => none

/-- `re.search` of one registered pattern over the post text. -/
def runPattern (k : PatKind) (post : String) : Option String :=
  match k with
  | .nowLastPrice => (regexSearch nlpFindAt post.data).map String.mk
  | .price => (regexSearch priceFindAt post.data).map String.mk
  | .eta => (regexSearch etaFindAt post.data).map String.mk

/-- The `extraction_patterns` registry: the three fixed placeholder names. -/
def extraction_patterns (name : String) : Option PatKind :=
  if name = "Now last price" then some .nowLastPrice
  else if name = "Price" then some .price
  else if name = "ETA" then some .eta
  else none

/-- The value bound to one placeholder (`values[placeholder]`): `N/A` when no
pattern is registered for the name, and `N/A` when the registered pattern
finds no match in the post. -/
def extractValue (post : String) (name : String) : String :=
  match extraction_patterns name with
  | none => "N/A"
  | some k =>
    match runPattern k post with
    | some v => v
    | none => "N/A"

/-- The `re.findall(r'\{([^}]+)\}', line)` scan: non-empty brace groups, left
to right, non-overlapping.  Fuel is the length of the list. -/
def findPHGo : Nat → List Char → List (List Char)
  | 0, _ => []
  | _ + 1, [] => []
  | fuel + 1, c :: rest =>
    if c == '\x7b' then
      let t := rest.takeWhile (fun d => !(d == '\x7d'))
      match rest.drop t.length with
      | '\x7d' :: rest2 =>
        if t.isEmpty then findPHGo fuel rest else t :: findPHGo fuel rest2
      | _ => []
    else findPHGo fuel rest

/-- Placeholder names referenced in one template line. -/
def findPlaceholders (line : String) : List String :=
  (findPHGo line.data.length line.data).map String.mk

/-- First-occurrence deduplication, standing in for the Python `set` of
placeholders (substitution below is order-independent because no extracted
value can contain a brace). -/
def dedupKeepFirst : List String → List String
  | [] => []
  | x :: rest => x :: (dedupKeepFirst rest).filter (fun y => !(y == x))

/-- Python `s.replace(pat, rep)`: all non-overlapping occurrences, left to
right.  Fuel is the length of the subject; each step consumes at least one
character because every embedded call passes a non-empty pattern. -/
def replaceAllGo (pat rep : List Char) : Nat → List Char → List Char
  | 0, l => l
  | _ + 1, [] => []
  | fuel + 1, c :: rest =>
    if isPrefixB pat (c :: rest) then
      rep ++ replaceAllGo pat rep fuel ((c :: rest).drop pat.length)
    else c :: replaceAllGo pat rep fuel rest

/-- Python `s.replace(pat, rep)` for the non-empty patterns used here. -/
def pyReplace (s pat rep : String) : String :=
  if pat.isEmpty then s
  else String.mk (replaceAllGo pat.data rep.data s.data.length s.data)

/-- One line of the selected branch with every placeholder substituted
(`formatted_line.replace('{' + placeholder + '}', value)` over all collected
placeholders). -/
def substLine (post : String) (names : List String) (line : String) : String :=
  names.foldl
    (fun acc name =>
      pyReplace acc (String.mk ('\x7b' :: name.data ++ ['\x7d'])) (extractValue post name))
    line

/-- `'\n'.join(lines)`. -/
def joinNL : List String → String
  | [] => ""
  | [x] => x
  | x :: rest => x ++ "\n" ++ joinNL rest

/-- Source `format_call_message`.  The template is the parsed dict as an
association list in its insertion (declaration) order: `None`/empty template
gives `None`; the branch is chosen by the first declared tag occurring in the
post text (`break` on the first hit); a chosen but empty branch gives `None`;
otherwise the branch lines, placeholders substituted, joined by newlines. -/
def format_call_message (post_text : String)
    (call_template : List (String × List String)) : Option String :=
  match call_template.find? (fun b => pyIn b.1 post_text) with
  | none => none
  | some (_, lines) =>
    if lines.isEmpty then none
    else
      let names :=
        dedupKeepFirst (lines.foldr (fun ln acc => findPlaceholders ln ++ acc) [])
      some (joinNL (lines.map (substLine post_text names)))

/-! ### Helper lemmas -/

theorem isPrefixB_append_right {n : List Char} : ∀ {l1 : List Char} (l2 : List Char),
    isPrefixB n l1 = true → isPrefixB n (l1 ++ l2) = true := by
  induction n with
  | nil => intro l1 l2 _; simp [isPrefixB]
  | cons a as ih =>
    intro l1 l2 h
    cases l1 with
    | nil => simp [isPrefixB] at h
    | cons b bs =>
      simp only [isPrefixB, Bool.and_eq_true] at h
      simp only [List.cons_append, isPrefixB, Bool.and_eq_true]
      exact ⟨h.1, ih l2 h.2⟩

theorem isInfixB_nil_left : ∀ l : List Char, isInfixB [] l = true
  | [] => rfl
  | _ :: _ => by simp [isInfixB, isPrefixB]

theorem isInfixB_append_left {n : List Char} : ∀ {l1 : List Char} (l2 : List Char),
    isInfixB n l1 = true → isInfixB n (l1 ++ l2) = true := by
  intro l1
  induction l1 with
  | nil =>
    intro l2 h
    simp only [isInfixB, List.isEmpty_iff] at h
    subst h
    exact isInfixB_nil_left l2
  | cons c rest ih =>
    intro l2 h
    simp only [isInfixB, Bool.or_eq_true] at h ⊢
    rcases h with hp | hi
    · exact Or.inl (isPrefixB_append_right l2 hp)
    · exact Or.inr (ih l2 hi)

theorem isInfixB_singleton_of_mem {a : Char} {l : List Char} (h : a ∈ l) :
    isInfixB [a] l = true := by
  induction l with
  | nil => cases h
  | cons c rest ih =>
    simp only [isInfixB, Bool.or_eq_true]
    rcases List.mem_cons.mp h with h1 | h2
    · subst h1
      exact Or.inl (by simp [isPrefixB])
    · exact Or.inr (ih h2)

/-- Every serialized condition dict contains a double quote: `json.dumps`
quotes the dict keys unconditionally. -/
theorem condJson_has_quote : ∀ c : Cond, isInfixB ['"'] (condJsonChars c) = true := by
  intro c
  cases c <;>
    (simp only [condJsonChars, List.append_assoc]
     apply isInfixB_append_left
     decide)

/-- Consequence: the flag `poll_channels` computes is `true` for every
non-empty stored filter, independent of whether the submission was quoted. -/
theorem allMustMatchFlag_eq (conds : List Cond) :
    allMustMatchFlag conds = !conds.isEmpty := by
  cases conds with
  | nil => rfl
  | cons c rest => simp [allMustMatchFlag, condJson_has_quote]

theorem le_foldl_max (l : List Post) (a : Nat) :
    a ≤ l.foldl (fun x q => max x q.id) a := by
  induction l generalizing a with
  | nil => exact le_refl a
  | cons p rest ih =>
    rw [List.foldl_cons]
    exact le_trans (le_max_left a p.id) (ih (max a p.id))

theorem mem_le_foldl_max {p : Post} : ∀ {l : List Post}, p ∈ l →
    ∀ a : Nat, p.id ≤ l.foldl (fun x q => max x q.id) a := by
  intro l
  induction l with
  | nil => intro h; cases h
  | cons q rest ih =>
    intro h a
    rw [List.foldl_cons]
    rcases List.mem_cons.mp h with h1 | h2
    · subst h1
      exact le_trans (le_max_right a p.id) (le_foldl_max rest (max a p.id))
    · exact ih h2 (max a q.id)

/-- Every post of the fetched batch has id at most the batch maximum. -/
theorem maxId_ge {p : Post} {posts : List Post} (h : p ∈ posts) : p.id ≤ maxId posts := by
  cases posts with
  | nil => cases h
  | cons q rest =>
    show p.id ≤ rest.foldl (fun x r => max x r.id) q.id
    rcases List.mem_cons.mp h with h1 | h2
    · subst h1
      exact le_foldl_max rest p.id
    · exact mem_le_foldl_max h2 q.id

/-- The skip branch: a channel with no configured filter does nothing. -/
theorem pollCycle_skip {conds : List Cond} (okP okF : Post → Bool) (w : Nat)
    (posts : List Post) (h : conds.isEmpty = true) :
    pollCycle conds okP okF w posts = (w, []) := by
  simp [pollCycle, h]

/-- The no-new-posts branch: when nothing exceeds the watermark, the cycle
has no effect. -/
theorem pollCycle_noNew (conds : List Cond) (okP okF : Post → Bool) {w : Nat}
    {posts : List Post} (h : ∀ p ∈ posts, p.id ≤ w) :
    pollCycle conds okP okF w posts = (w, []) := by
  have hf : posts.filter (fun p => decide (w < p.id)) = [] := by
    rw [List.filter_eq_nil_iff]
    intro p hp
    simpa using Nat.not_lt.mpr (h p hp)
  simp [pollCycle, hf]

/-- The advancing branch: some fetched post exceeds the watermark, so the
cycle persists the batch maximum first and then runs the delivery loop on
the new posts in ascending id order. -/
theorem pollCycle_new {conds : List Cond} (okP okF : Post → Bool) {w : Nat}
    {posts : List Post} {p : Post} (hc : conds ≠ []) (hp : p ∈ posts) (hw : w < p.id) :
    pollCycle conds okP okF w posts
      = (maxId posts,
         Ev.persist (maxId posts)
           :: deliverLoop conds okP okF
               (sortById (posts.filter (fun q => decide (w < q.id))))) := by
  have hce : conds.isEmpty = false := by
    rw [List.isEmpty_eq_false]
    exact hc
  have hmem : p ∈ posts.filter (fun q => decide (w < q.id)) :=
    List.mem_filter.mpr ⟨hp, by simpa using hw⟩
  have hne : (posts.filter (fun q => decide (w < q.id))).isEmpty = false := by
    rw [List.isEmpty_eq_false]
    exact List.ne_nil_of_mem hmem
  simp [pollCycle, hce, hne]

/-- Under an always-succeeding fallback sink, the delivery loop visits every
new post in order, attempting one primary send per filter-passing post and
one fallback send after each failed primary. -/
theorem deliverLoop_eq_flatMap {conds : List Cond} {okP okF : Post → Bool}
    (hok : ∀ p, okF p = true) : ∀ l : List Post,
    deliverLoop conds okP okF l
      = l.flatMap (fun p =>
          if evaluate_filter p.text conds (allMustMatchFlag conds) then
            Ev.sendPrimary p.id :: (if okP p then [] else [Ev.sendFallback p.id])
          else []) := by
  intro l
  induction l with
  | nil => rfl
  | cons p rest ih =>
    simp only [deliverLoop, List.flatMap_cons, hok p]
    by_cases hpass : evaluate_filter p.text conds (allMustMatchFlag conds)
    · by_cases hokp : okP p
      · simp [hpass, hokp, ih]
      · simp [hpass, hokp, ih]
    · simp [hpass, ih]

/-- The delivery loop emits send events only (never a persist event). -/
theorem deliverLoop_send_only {conds : List Cond} {okP okF : Post → Bool} :
    ∀ (l : List Post) (e : Ev), e ∈ deliverLoop conds okP okF l → isSendEv e = true := by
  intro l
  induction l with
  | nil => intro e h; cases h
  | cons p rest ih =>
    intro e h
    by_cases hpass : evaluate_filter p.text conds (allMustMatchFlag conds)
    · by_cases hokp : okP p
      · simp only [deliverLoop, hpass, if_true, hokp] at h
        rcases List.mem_cons.mp h with h1 | h2
        · subst h1; rfl
        · exact ih e h2
      · by_cases hokf : okF p
        · simp only [deliverLoop, hpass, if_true, hokp, if_false, hokf] at h
          rcases List.mem_cons.mp h with h1 | h2
          · subst h1; rfl
          · rcases List.mem_cons.mp h2 with h3 | h4
            · subst h3; rfl
            · exact ih e h4
        · simp only [deliverLoop, hpass, if_true, hokp, hokf, if_false] at h
          rcases List.mem_cons.mp h with h1 | h2
          · subst h1; rfl
          · rcases List.mem_cons.mp h2 with h3 | h4
            · subst h3; rfl
            · cases h4
    · simp only [deliverLoop, hpass, if_false] at h
      exact ih e h

theorem mem_insertById {b p : Post} : ∀ {l : List Post},
    b ∈ insertById p l → b = p ∨ b ∈ l := by
  intro l
  induction l with
  | nil =>
    intro h
    rcases List.mem_cons.mp h with h1 | h2
    · exact Or.inl h1
    · cases h2
  | cons q rest ih =>
    intro h
    by_cases hq : q.id < p.id
    · simp only [insertById, hq, if_true] at h
      rcases List.mem_cons.mp h with h1 | h2
      · exact Or.inr (List.mem_cons.mpr (Or.inl h1))
      · rcases ih h2 with h3 | h4
        · exact Or.inl h3
        · exact Or.inr (List.mem_cons.mpr (Or.inr h4))
    · simp only [insertById, hq, if_false] at h
      rcases List.mem_cons.mp h with h1 | h2
      · exact Or.inl h1
      · exact Or.inr h2

theorem insertById_pairwise {p : Post} : ∀ {l : List Post},
    l.Pairwise (fun a b => a.id ≤ b.id) →
    (insertById p l).Pairwise (fun a b => a.id ≤ b.id) := by
  intro l
  induction l with
  | nil => intro _; simp [insertById]
  | cons q rest ih =>
    intro h
    rw [List.pairwise_cons] at h
    by_cases hq : q.id < p.id
    · simp only [insertById, hq, if_true]
      rw [List.pairwise_cons]
      refine ⟨?_, ih h.2⟩
      intro b hb
      rcases mem_insertById hb with h1 | h2
      · subst h1; exact le_of_lt hq
      · exact h.1 b h2
    · simp only [insertById, hq, if_false]
      rw [List.pairwise_cons]
      refine ⟨?_, List.pairwise_cons.mpr h⟩
      intro b hb
      rcases List.mem_cons.mp hb with h1 | h2
      · subst h1; exact Nat.not_lt.mp hq
      · exact le_trans (Nat.not_lt.mp hq) (h.1 b h2)

/-- The sorted new-post list is ascending in id. -/
theorem sortById_pairwise : ∀ l : List Post,
    (sortById l).Pairwise (fun a b => a.id ≤ b.id) := by
  intro l
  induction l with
  | nil => exact List.Pairwise.nil
  | cons p rest ih => exact insertById_pairwise ih

/-! ### Claim theorems -/

/-- C1 (code bug).  The claim says the flag `poll_channels` passes to
`evaluate_filter` equals whether the raw submission contained quoted groups.
The code computes `any('"' in json.dumps(cond) for cond in filter)`, and
`json.dumps` of a condition dict always contains a quote (the dict keys are
quoted), so the flag is `true` for every non-empty stored filter: the
submission `buy⏎sell` has no quote and two non-empty lines, yet the poll
cycle evaluates it with AND composition and rejects the post `buy now`,
which OR composition (the claim, and the bot's own /help text) would
forward. -/
theorem c1_all_must_match_flag_bug :
    pyIn "\"" "buy\nsell" = false
    ∧ parse_filter "buy\nsell" = [Cond.text "buy", Cond.text "sell"]
    ∧ allMustMatchFlag (parse_filter "buy\nsell") = true
    ∧ evaluate_filter "buy now" (parse_filter "buy\nsell")
        (allMustMatchFlag (parse_filter "buy\nsell")) = false
    ∧ evaluate_filter "buy now" (parse_filter "buy\nsell") false = true
    ∧ allMustMatchFlag (parse_filter "\"Spread\x7b>10%\x7d\" \"buy\"") = true := by
  decide

/-- C2.  Watermark behaviour of one poll cycle: the watermark never
decreases; when no fetched post exceeds it the cycle leaves it unchanged and
performs nothing; and when some fetched post exceeds it (on a channel with a
configured filter) the new watermark is the maximum id of the entire fetched
batch, and its persist event heads the trace, before any send event. -/
theorem c2_watermark_advance (conds : List Cond) (okP okF : Post → Bool) (w : Nat)
    (posts : List Post) :
    w ≤ (pollCycle conds okP okF w posts).1
    ∧ ((∀ p ∈ posts, p.id ≤ w) → pollCycle conds okP okF w posts = (w, []))
    ∧ (conds ≠ [] → ∀ p ∈ posts, w < p.id →
        (pollCycle conds okP okF w posts).1 = maxId posts
        ∧ (pollCycle conds okP okF w posts).2.head?
            = some (Ev.persist (maxId posts))) := by
  refine ⟨?_, ?_, ?_⟩
  · by_cases hc : conds.isEmpty
    · rw [pollCycle_skip okP okF w posts hc]
    · by_cases hall : ∀ p ∈ posts, p.id ≤ w
      · rw [pollCycle_noNew conds okP okF hall]
      · push_neg at hall
        obtain ⟨p, hp, hw⟩ := hall
        have hc' : conds ≠ [] := fun h => by simp [h] at hc
        rw [pollCycle_new okP okF hc' hp hw]
        exact le_of_lt (lt_of_lt_of_le hw (maxId_ge hp))
  · intro h
    exact pollCycle_noNew conds okP okF h
  · intro hc p hp hw
    rw [pollCycle_new okP okF hc hp hw]
    exact ⟨rfl, rfl⟩

/-- C2 witness: the spec's end-to-end scenario (watermark 100, fetched ids
99, 101, 103) instantiates the advancing branch of `c2_watermark_advance`. -/
theorem c2_watermark_advance_witness :
    (pollCycle [Cond.alternatives ["buy", "sell"]] (fun _ => true) (fun _ => true) 100
        [⟨99, "no match"⟩, ⟨101, "buy now"⟩, ⟨103, "sell now"⟩]).1
      = maxId [⟨99, "no match"⟩, ⟨101, "buy now"⟩, ⟨103, "sell now"⟩]
    ∧ (pollCycle [Cond.alternatives ["buy", "sell"]] (fun _ => true) (fun _ => true) 100
        [⟨99, "no match"⟩, ⟨101, "buy now"⟩, ⟨103, "sell now"⟩]).2.head?
      = some (Ev.persist (maxId [⟨99, "no match"⟩, ⟨101, "buy now"⟩, ⟨103, "sell now"⟩])) :=
  (c2_watermark_advance [Cond.alternatives ["buy", "sell"]] (fun _ => true) (fun _ => true)
      100 [⟨99, "no match"⟩, ⟨101, "buy now"⟩, ⟨103, "sell now"⟩]).2.2
    (by decide) ⟨101, "buy now"⟩ (by decide) (by decide)

/-- C5.  Idempotence: a second cycle over the same fetched batch, starting
from the watermark the first cycle produced, changes nothing and attempts no
delivery (its trace is empty). -/
theorem c5_poll_cycle_idempotent (conds : List Cond) (okP okF : Post → Bool) (w : Nat)
    (posts : List Post) :
    pollCycle conds okP okF (pollCycle conds okP okF w posts).1 posts
      = ((pollCycle conds okP okF w posts).1, []) := by
  by_cases hc : conds.isEmpty
  · rw [pollCycle_skip okP okF w posts hc]
    exact pollCycle_skip okP okF w posts hc
  · by_cases hall : ∀ p ∈ posts, p.id ≤ w
    · rw [pollCycle_noNew conds okP okF hall]
      exact pollCycle_noNew conds okP okF hall
    · push_neg at hall
      obtain ⟨p, hp, hw⟩ := hall
      have hc' : conds ≠ [] := fun h => by simp [h] at hc
      rw [pollCycle_new okP okF hc' hp hw]
      exact pollCycle_noNew conds okP okF (fun q hq => maxId_ge hq)

/-- C6 counterexample.  With a sink whose primary and fallback sends both
fail, the fallback failure propagates to the per-channel handler and the
remaining posts of the cycle are skipped: post 2 passes the filter but no
primary send is ever attempted for it, contradicting the claim's "for each
filter-passing post one delivery of the primary message is attempted". -/
theorem c6_fallback_abort_counterexample :
    (pollCycle [Cond.text "a"] (fun _ => false) (fun _ => false) 0
        [⟨1, "a"⟩, ⟨2, "a"⟩]).2
      = [Ev.persist 2, Ev.sendPrimary 1, Ev.sendFallback 1]
    ∧ evaluate_filter "a" [Cond.text "a"] (allMustMatchFlag [Cond.text "a"]) = true
    ∧ Ev.sendPrimary 2
        ∉ (pollCycle [Cond.text "a"] (fun _ => false) (fun _ => false) 0
            [⟨1, "a"⟩, ⟨2, "a"⟩]).2 := by
  decide

/-- C6 (amended).  Provided no fallback send fails, the cycle's send trace
is exactly: for each new post in ascending id order, when it passes the
filter, one primary attempt, followed by exactly one fallback attempt when
the primary failed; the primary failure is absorbed (the loop continues).
The sorted new-post list is ascending in id. -/
theorem c6_delivery_order_fallback (conds : List Cond) (okP okF : Post → Bool) (w : Nat)
    (posts : List Post) (hc : conds ≠ []) (hok : ∀ p, okF p = true) :
    sendEvents (pollCycle conds okP okF w posts).2
      = (sortById (posts.filter (fun p => decide (w < p.id)))).flatMap
          (fun p =>
            if evaluate_filter p.text conds (allMustMatchFlag conds) then
              Ev.sendPrimary p.id :: (if okP p then [] else [Ev.sendFallback p.id])
            else [])
    ∧ (sortById (posts.filter (fun p => decide (w < p.id)))).Pairwise
        (fun a b => a.id ≤ b.id) := by
  refine ⟨?_, sortById_pairwise _⟩
  by_cases hall : ∀ p ∈ posts, p.id ≤ w
  · have hf : posts.filter (fun p => decide (w < p.id)) = [] := by
      rw [List.filter_eq_nil_iff]
      intro p hp
      simpa using Nat.not_lt.mpr (hall p hp)
    rw [pollCycle_noNew conds okP okF hall, hf]
    rfl
  · push_neg at hall
    obtain ⟨p, hp, hw⟩ := hall
    rw [pollCycle_new okP okF hc hp hw]
    show List.filter isSendEv _ = _
    rw [List.filter_cons]
    have hpe : isSendEv (Ev.persist (maxId posts)) = false := rfl
    rw [hpe]
    simp only [Bool.false_eq_true, if_false]
    rw [List.filter_eq_self.mpr (fun e he => deliverLoop_send_only _ e he)]
    exact deliverLoop_eq_flatMap hok _

/-- C6 witness: concrete run of the amended statement, with post 103's
primary send failing and its single fallback succeeding; sends happen in
ascending id order 101, 103. -/
theorem c6_delivery_order_fallback_witness :
    sendEvents (pollCycle [Cond.alternatives ["buy", "sell"]]
        (fun p => p.id == 101) (fun _ => true) 100
        [⟨99, "no match"⟩, ⟨103, "sell now"⟩, ⟨101, "buy now"⟩]).2
      = [Ev.sendPrimary 101, Ev.sendPrimary 103, Ev.sendFallback 103] :=
  ((c6_delivery_order_fallback [Cond.alternatives ["buy", "sell"]]
      (fun p => p.id == 101) (fun _ => true) 100
      [⟨99, "no match"⟩, ⟨103, "sell now"⟩, ⟨101, "buy now"⟩]
      (by decide) (fun _ => rfl)).1).trans (by decide)

/-- C3.  The numeric check compares the absolute value of the extracted
number: two posts whose extractions agree on the unit and differ only in the
sign of the number are indistinguishable to any numeric condition; and
concretely, a post containing `Spread: -15%` passes the parsed filter
`Spread{>10%}` and fails the parsed filter `Spread{>20%}` through the full
parse/evaluate pipeline with the poll cycle's flag. -/
theorem c3_numeric_absolute_value :
    (∀ (key v post1 post2 : String) (op : Op) (raw1 raw2 : List Char) (u : Option Char),
      numSearch key.data post1.data = some (raw1, u) →
      numSearch key.data post2.data = some (raw2, u) →
      pyFloatOfChars raw1 = -pyFloatOfChars raw2 →
      check_condition post1 (Cond.num key op v) = check_condition post2 (Cond.num key op v))
    ∧ evaluate_filter "Spread: -15%" (parse_filter "Spread{>10%}")
        (allMustMatchFlag (parse_filter "Spread{>10%}")) = true
    ∧ evaluate_filter "Spread: -15%" (parse_filter "Spread{>20%}")
        (allMustMatchFlag (parse_filter "Spread{>20%}")) = false := by
  refine ⟨?_, by decide, by decide⟩
  intro key v post1 post2 op raw1 raw2 u h1 h2 hsign
  have habs : |pyFloatOfChars raw1| = |pyFloatOfChars raw2| := by
    rw [hsign, abs_neg]
  simp only [check_condition, h1, h2, habs]

/-- C3 witness: `Spread: -15%` and `Spread: 15%` extract `-15`/`15` with the
same `%` unit, so the sign-invariance part applies to them. -/
theorem c3_numeric_absolute_value_witness :
    check_condition "Spread: -15%" (Cond.num "Spread" Op.gt "10%")
      = check_condition "Spread: 15%" (Cond.num "Spread" Op.gt "10%") :=
  c3_numeric_absolute_value.1 "Spread" "10%" "Spread: -15%" "Spread: 15%" Op.gt
    ['-', '1', '5'] ['1', '5'] (some '%') (by decide) (by decide) (by decide)

/-- C4 counterexample.  In the filter text `Align Time{>150}s` the `s` sits
outside the braces; `re.match` ignores the trailing `s`, so the parsed
condition's value is `150` with no unit, the unit check degenerates to the
both-absent case, and the unitless post `Align Time: 200` satisfies the
filter (200 > 150) — the claim says it does not. -/
theorem c4_unit_outside_braces_counterexample :
    parse_filter "Align Time{>150}s" = [Cond.num "Align Time" Op.gt "150"]
    ∧ evaluate_filter "Align Time: 200" (parse_filter "Align Time{>150}s")
        (allMustMatchFlag (parse_filter "Align Time{>150}s")) = true := by
  decide

/-- C4 (amended).  When the parsed value does carry a unit suffix and the
matched post number carries no unit or a different one, the condition is
false; the unit-mismatch behaviour is exhibited by `Align Time{>150s}` (unit
inside the braces), which post `Align Time: 200` does not satisfy. -/
theorem c4_unit_mismatch_amended :
    (∀ (key v post : String) (op : Op) (raw : List Char) (u : Option Char) (c : Char),
      expectedUnitOf v.data = some c →
      numSearch key.data post.data = some (raw, u) →
      u ≠ some c →
      check_condition post (Cond.num key op v) = false)
    ∧ parse_filter "Align Time{>150s}" = [Cond.num "Align Time" Op.gt "150s"]
    ∧ evaluate_filter "Align Time: 200" (parse_filter "Align Time{>150s}")
        (allMustMatchFlag (parse_filter "Align Time{>150s}")) = false := by
  refine ⟨?_, by decide, by decide⟩
  intro key v post op raw u c hexp hsearch hne
  simp only [check_condition, hsearch, hexp]
  have h1 : ¬(u = none ∧ (some c : Option Char) = none) := by
    rintro ⟨-, h⟩
    cases h
  rw [if_neg h1, if_pos hne]

/-- C4 witness: the amended unit-mismatch statement at the concrete filter
`Align Time{>150s}` and post `Align Time: 200` (extracted unit absent). -/
theorem c4_unit_mismatch_witness :
    check_condition "Align Time: 200" (Cond.num "Align Time" Op.gt "150s") = false :=
  c4_unit_mismatch_amended.1 "Align Time" "150s" "Align Time: 200" Op.gt
    ['2', '0', '0'] none 's' (by decide) (by decide) (by decide)

/-- C9.  A timer condition is false when the post contains no occurrence of
the timer glyph followed by a decimal number and `min`; otherwise the first
such occurrence's minutes value is compared with the condition's operator
and threshold.  Concretely, the parsed filter `⏱️{<5} min` matches a post
containing `⏱️ 3 min` and fails against `⏱️ 7 min`. -/
theorem c9_timer_condition :
    (∀ (post v : String) (op : Op), timerSearch post.data = none →
      check_condition post (Cond.timer op v) = false)
    ∧ (∀ (post v : String) (op : Op) (raw : List Char),
        timerSearch post.data = some raw →
        check_condition post (Cond.timer op v)
          = op.apply (pyFloatOfChars raw) (pyFloatOfChars v.data))
    ∧ parse_filter (String.mk timerGlyph ++ "{<5} min") = [Cond.timer Op.lt "5"]
    ∧ evaluate_filter (String.mk timerGlyph ++ " 3 min")
        (parse_filter (String.mk timerGlyph ++ "{<5} min"))
        (allMustMatchFlag (parse_filter (String.mk timerGlyph ++ "{<5} min"))) = true
    ∧ evaluate_filter (String.mk timerGlyph ++ " 7 min")
        (parse_filter (String.mk timerGlyph ++ "{<5} min"))
        (allMustMatchFlag (parse_filter (String.mk timerGlyph ++ "{<5} min"))) = false := by
  refine ⟨?_, ?_, by decide, by decide, by decide⟩
  · intro post v op h
    simp only [check_condition, h]
  · intro post v op raw h
    simp only [check_condition, h]

/-- C9 witness: the absent-occurrence part at a post with no timer text. -/
theorem c9_timer_condition_witness :
    check_condition "no timer here" (Cond.timer Op.lt "5") = false :=
  c9_timer_condition.1 "no timer here" "5" Op.lt (by decide)

/-- C7.  Grammar priority of `parse_single_condition`: any fragment with a
slash is Alternatives split on `/` (first rule, unconditionally — the
concrete fragment `a{>5}/b` also matches the numeric pattern yet parses as
Alternatives), and any fragment matching neither the slash rule nor the
timer nor the numeric pattern is a Text condition holding the fragment
verbatim — including malformed numeric syntax such as `Spread{>}`. -/
theorem c7_parser_priority :
    (∀ s : String, pyIn "/" s = true →
      parse_single_condition s
        = Cond.alternatives ((splitOnChar '/' s.data).map String.mk))
    ∧ (∀ s : String, pyIn "/" s = false → matchTimer s.data = none →
        matchNumeric s.data = none → parse_single_condition s = Cond.text s)
    ∧ parse_single_condition "a{>5}/b" = Cond.alternatives ["a{>5}", "b"]
    ∧ matchNumeric "a{>5}/b".data ≠ none
    ∧ parse_single_condition "Spread{>}" = Cond.text "Spread{>}" := by
  refine ⟨?_, ?_, by decide, by decide, by decide⟩
  · intro s h
    simp only [parse_single_condition, h, if_true]
  · intro s h ht hn
    simp only [parse_single_condition, h, ht, hn, Bool.false_eq_true, if_false]

/-- C7 witness: the slash rule on `buy/sell` and the text fallback on a
plain phrase. -/
theorem c7_parser_priority_witness :
    parse_single_condition "buy/sell"
      = Cond.alternatives ((splitOnChar '/' "buy/sell".data).map String.mk)
    ∧ parse_single_condition "Scores: ok" = Cond.text "Scores: ok" :=
  ⟨c7_parser_priority.1 "buy/sell" (by decide),
   c7_parser_priority.2.1 "Scores: ok" (by decide) (by decide) (by decide)⟩

/-- C8.  The template formatter returns `none` on an absent/empty template
and when no declared tag occurs in the post; it selects the first tag in
declaration order that occurs in the post (ignoring later branches and the
non-occurring earlier ones); a placeholder with no registered pattern, or
whose pattern fails on the post, resolves to the literal `N/A`; and the
branch for `🟥` with line `ENTRY: {Price}` on a post containing the tag and
`Price: $42.50` yields `ENTRY: 42.50`. -/
theorem c8_template_formatter :
    (∀ post : String, format_call_message post [] = none)
    ∧ (∀ (post : String) (tpl : List (String × List String)),
        (∀ b ∈ tpl, pyIn b.1 post = false) → format_call_message post tpl = none)
    ∧ (∀ (post : String) (tpl1 tpl2 : List (String × List String)) (tag : String)
        (lines : List String),
        (∀ b ∈ tpl1, pyIn b.1 post = false) → pyIn tag post = true →
        format_call_message post (tpl1 ++ (tag, lines) :: tpl2)
          = if lines.isEmpty then none
            else some (joinNL (lines.map (substLine post
                (dedupKeepFirst (lines.foldr (fun ln acc => findPlaceholders ln ++ acc) []))))))
    ∧ (∀ post name : String, extraction_patterns name = none →
        extractValue post name = "N/A")
    ∧ (∀ (post name : String) (k : PatKind), extraction_patterns name = some k →
        runPattern k post = none → extractValue post name = "N/A")
    ∧ format_call_message (String.mk [Char.ofNat 0x1F7E5] ++ " SHORT\nPrice: $42.50")
        [(String.mk [Char.ofNat 0x1F7E5], ["ENTRY: {Price}"])] = some "ENTRY: 42.50"
    ∧ format_call_message (String.mk [Char.ofNat 0x1F7E5] ++ " go")
        [(String.mk [Char.ofNat 0x1F7E5], ["ENTRY: {Price}"])] = some "ENTRY: N/A" := by
  refine ⟨?_, ?_, ?_, ?_, ?_, by decide, by decide⟩
  · intro post
    rfl
  · intro post tpl h
    have hf : tpl.find? (fun b => pyIn b.1 post) = none :=
      List.find?_eq_none.mpr (fun b hb => by simp [h b hb])
    simp only [format_call_message, hf]
  · intro post tpl1 tpl2 tag lines h1 h2
    have hA : tpl1.find? (fun b => pyIn b.1 post) = none :=
      List.find?_eq_none.mpr (fun b hb => by simp [h1 b hb])
    have hB : ((tag, lines) :: tpl2).find? (fun b => pyIn b.1 post) = some (tag, lines) :=
      List.find?_cons_of_pos _ (by simpa using h2)
    simp only [format_call_message, List.find?_append, hA, hB, Option.none_or]
  · intro post name h
    simp only [extractValue, h]
  · intro post name k h1 h2
    simp only [extractValue, h1, h2]

/-- C8 witness: `none` when no declared tag occurs, and `N/A` for a
placeholder with no registered extraction pattern. -/
theorem c8_template_formatter_witness :
    format_call_message "no tag at all"
        [(String.mk [Char.ofNat 0x1F7E5], ["ENTRY: {Price}"])] = none
    ∧ extractValue "anything" "Foo" = "N/A" :=
  ⟨c8_template_formatter.2.1 "no tag at all" _ (by decide),
   c8_template_formatter.2.2.2.1 "anything" "Foo" (by decide)⟩

theorem splitOnChar_ne_nil (sep : Char) (l : List Char) : splitOnChar sep l ≠ [] := by
  cases l with
  | nil => simp [splitOnChar]
  | cons c rest =>
    simp only [splitOnChar]
    split
    · simp
    · split <;> simp

theorem nil_mem_tail_splitOnChar_concat (sep : Char) :
    ∀ l : List Char, [] ∈ (splitOnChar sep (l ++ [sep])).tail := by
  intro l
  induction l with
  | nil => simp [splitOnChar]
  | cons c rest ih =>
    simp only [List.cons_append, splitOnChar]
    by_cases hc : c == sep
    · simp only [hc, if_true]
      exact List.mem_of_mem_tail ih
    · simp only [hc, Bool.false_eq_true, if_false]
      cases h : splitOnChar sep (rest ++ [sep]) with
      | nil => exact absurd h (splitOnChar_ne_nil sep _)
      | cons x t =>
        rw [h] at ih
        simpa using ih

theorem nil_mem_tail_splitOnChar_double (sep : Char) (a b : List Char) :
    [] ∈ (splitOnChar sep (a ++ sep :: sep :: b)).tail := by
  induction a with
  | nil => simp [splitOnChar]
  | cons c rest ih =>
    simp only [List.cons_append, splitOnChar]
    by_cases hc : c == sep
    · simp only [hc, if_true]
      exact List.mem_of_mem_tail ih
    · simp only [hc, Bool.false_eq_true, if_false]
      cases h : splitOnChar sep (rest ++ sep :: sep :: b) with
      | nil => exact absurd h (splitOnChar_ne_nil sep _)
      | cons x t =>
        rw [h] at ih
        simpa using ih

/-- C10.  A fragment containing a slash at the start, at the end, or two
adjacent slashes parses as an Alternatives condition whose value list
contains the empty string, and — the empty string being a substring of
every string — that condition accepts every post text. -/
theorem c10_slash_empty_alternative (s : String)
    (h : (∃ t, s.data = '/' :: t) ∨ (∃ t, s.data = t ++ ['/'])
        ∨ ∃ a b, s.data = a ++ '/' :: '/' :: b) :
    parse_single_condition s
      = Cond.alternatives ((splitOnChar '/' s.data).map String.mk)
    ∧ "" ∈ (splitOnChar '/' s.data).map String.mk
    ∧ ∀ post : String, check_condition post (parse_single_condition s) = true := by
  have hmem : ('/' : Char) ∈ s.data := by
    rcases h with ⟨t, ht⟩ | ⟨t, ht⟩ | ⟨a, b, ht⟩
    · rw [ht]
      exact List.mem_cons_self _ _
    · rw [ht]
      exact List.mem_append_right _ (List.mem_cons_self _ _)
    · rw [ht]
      exact List.mem_append_right _ (List.mem_cons_self _ _)
  have hin : pyIn "/" s = true := isInfixB_singleton_of_mem hmem
  have hparse : parse_single_condition s
      = Cond.alternatives ((splitOnChar '/' s.data).map String.mk) := by
    simp only [parse_single_condition, hin, if_true]
  have hnil : [] ∈ splitOnChar '/' s.data := by
    rcases h with ⟨t, ht⟩ | ⟨t, ht⟩ | ⟨a, b, ht⟩
    · rw [ht]
      simp [splitOnChar]
    · rw [ht]
      exact List.mem_of_mem_tail (nil_mem_tail_splitOnChar_concat '/' t)
    · rw [ht]
      exact List.mem_of_mem_tail (nil_mem_tail_splitOnChar_double '/' a b)
  have hempty : "" ∈ (splitOnChar '/' s.data).map String.mk :=
    List.mem_map.mpr ⟨[], hnil, rfl⟩
  refine ⟨hparse, hempty, ?_⟩
  intro post
  rw [hparse]
  simp only [check_condition, List.any_eq_true]
  exact ⟨"", hempty, isInfixB_nil_left post.data⟩

/-- C10 witness: the trailing-slash fragment `buy/` accepts an unrelated
post. -/
theorem c10_slash_empty_alternative_witness :
    check_condition "no relation to the filter" (parse_single_condition "buy/") = true :=
  (c10_slash_empty_alternative "buy/"
      (Or.inr (Or.inl ⟨['b', 'u', 'y'], by decide⟩))).2.2 "no relation to the filter"
